import Mathlib

/-!
# Verification of the sparsemapper core (`main.go`)

A shallow embedding of the sparse-bundle mapper: band discovery
(`enumBands`), extent-table construction (`attachBandsAndPrepareTable`),
resource release (`detachBands`), header reading (`readBundle`) and the
teardown loop of `main`, together with theorems about the specified
properties (coverage, ordering, idempotent release, retry bound, derived
offsets, error handling of overlapping bands and oversized bundles).

Machine integers are modelled as `Nat` with explicit reduction modulo
`2 ^ 64` exactly where Go's `uint64` arithmetic can wrap; Go's `int64`
values appear as `Int` with explicit wrapping where the source converts.
External collaborators (losetup attach/detach, device-mapper
create/remove, the plist decoder, the directory walk, the signal
channel) are modelled as oracles / explicit inputs, and the calls made
to them are recorded as traces so that statements about which resources
were acquired or released are expressible.
-/

namespace Sparsemapper

/-- Go `uint64` addition (`a + b` wraps modulo `2 ^ 64`). -/
def uadd (a b : Nat) : Nat := (a + b) % 2 ^ 64

/-- Go `uint64` multiplication (`a * b` wraps modulo `2 ^ 64`). -/
def umul (a b : Nat) : Nat := (a * b) % 2 ^ 64

/-- Go `uint64` subtraction `a - b`: wraps modulo `2 ^ 64` on underflow.
For `a, b < 2 ^ 64` this is `a - b` when `b ≤ a` and `2 ^ 64 - (b - a)`
otherwise. -/
def usub (a b : Nat) : Nat := (a % 2 ^ 64 + (2 ^ 64 - b % 2 ^ 64)) % 2 ^ 64

/-- The `band` struct of `main.go`.  `dev` is the backing loop device's
path (the observable identity of the `losetup.Device` handle); the Go
zero value of `losetup.Device` is modelled as the empty path. -/
structure Band where
  path : String
  id : Nat
  offset : Nat
  size : Nat
  attached : Bool
  dev : String
deriving DecidableEq, Repr

/-- A `devmapper.Table` entry: either `devmapper.ZeroTable` or
`devmapper.LinearTable` (start, length, backing device). -/
inductive Table where
  | zero (start length : Nat)
  | linear (start length : Nat) (backend : String)
deriving DecidableEq, Repr

/-- The `Start` field of a table entry. -/
def Table.start : Table → Nat
  | .zero s _ => s
  | .linear s _ _ => s

/-- The `Length` field of a table entry. -/
def Table.len : Table → Nat
  | .zero _ l => l
  | .linear _ l _ => l

/-- The environment of external effects seen by one session:
`noOp` is `opts.NoOp`; `attach n` is the outcome of the `losetup.Attach`
call made in loop iteration `n` (`none` = attach failed, `some p` =
attached as loop device `p`); `cancelled n` tells whether the
cancellation context is already done when polled at the top of loop
iteration `n`; `cancelDetach n` is the outcome of the `n`-th `Detach`
call of the cleanup pass run on cancellation; `createOk` is the outcome
of `devmapper.CreateAndLoad`. -/
structure Env where
  noOp : Bool
  attach : Nat → Option String
  cancelled : Nat → Bool
  cancelDetach : Nat → Bool
  createOk : Bool

/-- The extents emitted for one band once its backing device path is
known: a `ZeroTable` filling the hole `[lastByte, offset)` when the
cursor is not already at the band's offset, then the band's
`LinearTable`. -/
def mkExtents (b : Band) (lastByte : Nat) (devPath : String) : List Table :=
  (if lastByte ≠ b.offset then [Table.zero lastByte (usub b.offset lastByte)] else [])
    ++ [Table.linear b.offset b.size devPath]

/-- One iteration of the attach loop body of `attachBandsAndPrepareTable`
(after the cancellation poll): in no-op mode the band is left untouched
and extents use the placeholder device `"dummy"`; otherwise a failed
attach (`att = none`) is logged and skipped with `continue` — no
extents, cursor unchanged — and a successful attach records the device
on the band, marks it attached, and emits its extents.  Returns the
updated band, the emitted extents, and the new cursor
`uadd b.offset b.size`. -/
def attachStep (noOp : Bool) (att : Option String) (b : Band) (lastByte : Nat) :
    Band × List Table × Nat :=
  if noOp then
    (b, mkExtents b lastByte "dummy", uadd b.offset b.size)
  else
    match att with
    | none => (b, [], lastByte)
    | some p => ({ b with dev := p, attached := true },
                 mkExtents b lastByte p, uadd b.offset b.size)

/-- Result of the attach loop proper: either cancelled (the in-place
mutated band slice is kept by the caller even though the table is
discarded) or the mutated bands, the emitted table so far, and the final
cursor. -/
inductive AttachPartial where
  | cancelled (bands : List Band)
  | ok (bands : List Band) (table : List Table) (lastByte : Nat)
deriving DecidableEq

/-- The `for i := range bands` loop of `attachBandsAndPrepareTable`:
polls the cancellation context at the top of each iteration (index `i`),
then runs `attachStep`. -/
def attachBandsAux (env : Env) : List Band → Nat → Nat → AttachPartial
  | [], _, lastByte => .ok [] [] lastByte
  | b :: rest, i, lastByte =>
    if env.cancelled i then .cancelled (b :: rest)
    else
      match attachStep env.noOp (env.attach i) b lastByte with
      | (b', ts, last') =>
        match attachBandsAux env rest (i + 1) last' with
        | .cancelled bs => .cancelled (b' :: bs)
        | .ok bs ts2 lf => .ok (b' :: bs) (ts ++ ts2) lf

/-- The final result of `attachBandsAndPrepareTable`: on cancellation the
function returns `(nil, errCancelled)` but the caller keeps the mutated
band slice, which the `cancelled` constructor carries. -/
inductive AttachResult where
  | cancelled (bands : List Band)
  | ok (bands : List Band) (table : List Table)
deriving DecidableEq

/-- `attachBandsAndPrepareTable` of `main.go`: run the attach loop from
cursor 0, then append the trailing `ZeroTable` covering
`[lastByte, bundleSize)` whenever the cursor did not land exactly on
`bundleSize` (the length `bundleSize - lastByte` is `uint64`
subtraction, which wraps when `lastByte > bundleSize`). -/
def attachBandsAndPrepareTable (env : Env) (bands : List Band) (bundleSize : Nat) :
    AttachResult :=
  match attachBandsAux env bands 0 0 with
  | .cancelled bs => .cancelled bs
  | .ok bs ts lastByte =>
    .ok bs (ts ++ (if lastByte ≠ bundleSize then
                     [Table.zero lastByte (usub bundleSize lastByte)] else []))

/-- The loop of `detachBands`, with `det i` the outcome of the `Detach`
call issued for the band at position `i` (consulted only when that band
is attached).  Returns the updated bands, the `anyDetachFail` flag, and
the trace of device paths on which `Detach` was actually invoked
(including failed calls, which leave the band marked attached). -/
def detachBandsAux (det : Nat → Bool) : List Band → Nat → List Band × Bool × List String
  | [], _ => ([], false, [])
  | b :: r, i =>
    let rest := detachBandsAux det r (i + 1)
    if b.attached then
      if det i then
        ({ b with attached := false } :: rest.1, rest.2.1, b.dev :: rest.2.2)
      else
        (b :: rest.1, true, b.dev :: rest.2.2)
    else
      (b :: rest.1, rest.2.1, rest.2.2)

/-- `detachBands` of `main.go` (the progress-bar calls carry no state).
The middle component is `anyDetachFail`, i.e. whether the function
returns a non-nil error. -/
def detachBands (det : Nat → Bool) (bands : List Band) : List Band × Bool × List String :=
  detachBandsAux det bands 0

/-- `contiguousFromB a ts b` holds when the extent list `ts` tiles the
byte range `[a, b)` exactly: the first extent starts at `a`, each extent
starts where the previous one ends, and the last extent ends at `b`
(an empty list requires `a = b`). -/
def contiguousFromB : Nat → List Table → Nat → Bool
  | a, [], b => a == b
  | a, e :: ts, b => (e.start == a) && contiguousFromB (a + e.len) ts b

/-- One delivery on `main`'s wait channel (a `^C`), bundled with the
outcomes of the external calls the resulting loop iteration may make:
`removeOk` for `devmapper.Remove`, and `det i` for the `Detach` call on
the band at position `i` of that iteration's `detachBands` pass. -/
structure SignalEvent where
  removeOk : Bool
  det : Nat → Bool

/-- The `for { <-waitCh ... }` teardown loop at the end of `main`.
Each list element is one received signal.  State: `mapperActive`,
`failures`, the band slice, and the accumulated trace of `Detach`
calls.  Returns `(some code, bands, trace)` when the loop breaks and the
process exits via `os.Exit(failures)` — note that the exit code is the
`failures` counter itself — or `(none, bands, trace)` if all delivered
signals are consumed with the loop still blocked on the channel. -/
def teardownLoop : List SignalEvent → Bool → Nat → List Band → List String →
    Option Nat × List Band × List String
  | [], _, _, bands, trace => (none, bands, trace)
  | ev :: rest, mapperActive, failures, bands, trace =>
    if 2 ≤ failures then (some failures, bands, trace)
    else if mapperActive && !ev.removeOk then
      teardownLoop rest true failures bands trace
    else
      match detachBands ev.det bands with
      | (bs, fail, tr) =>
        if fail then teardownLoop rest false (failures + 1) bs (trace ++ tr)
        else (some 0, bs, trace ++ tr)

/-- The observable outcome of one mapping session (`main`, from the
`signal.NotifyContext` before `attachBandsAndPrepareTable` to process
exit): the exit code (if the process exited), whether
`devmapper.CreateAndLoad` was invoked, the trace of `Detach` calls, the
final band slice, the table handed to the mapper (`[]` when attachment
was cancelled and no table was produced), and whether the mapper node
was successfully created. -/
structure SessionResult where
  exitCode : Option Nat
  createCalled : Bool
  detachTrace : List String
  bands : List Band
  table : List Table
  mapperPublished : Bool
deriving DecidableEq

/-- `main` from the attach phase onward: attach bands and build the
table; on cancellation, detach whatever was attached and exit 0 (or 1
if that cleanup pass failed) without ever calling the mapper; otherwise
call `devmapper.CreateAndLoad` (unless in no-op mode; a create failure
is logged and leaves `mapperActive` false) and enter the teardown
loop. -/
def runSession (env : Env) (bands : List Band) (bundleSize : Nat)
    (events : List SignalEvent) : SessionResult :=
  match attachBandsAndPrepareTable env bands bundleSize with
  | .cancelled bs =>
    match detachBands env.cancelDetach bs with
    | (bs', fail, tr) =>
      { exitCode := some (if fail then 1 else 0), createCalled := false,
        detachTrace := tr, bands := bs', table := [], mapperPublished := false }
  | .ok bs table =>
    let mapperActive := !env.noOp && env.createOk
    match teardownLoop events mapperActive 0 bs [] with
    | (code, bs', tr) =>
      { exitCode := code, createCalled := !env.noOp, detachTrace := tr,
        bands := bs', table := table, mapperPublished := mapperActive }

/-! ## Band discovery (`enumBands`) and header reading (`readBundle`) -/

/-- Value of one hexadecimal digit, as accepted by Go's
`strconv.ParseUint` with base 16. -/
def hexVal (c : Char) : Option Nat :=
  if '0' ≤ c ∧ c ≤ '9' then some (c.toNat - '0'.toNat)
  else if 'a' ≤ c ∧ c ≤ 'f' then some (c.toNat - 'a'.toNat + 10)
  else if 'A' ≤ c ∧ c ≤ 'F' then some (c.toNat - 'A'.toNat + 10)
  else none

/-- Digit-accumulation loop of `strconv.ParseUint(s, 16, 64)`: rejects a
non-hex digit, and rejects overflow past `2 ^ 64 - 1` (Go returns
`ErrRange` there, which `enumBands` propagates as an error). -/
def parseHexAcc : List Char → Nat → Option Nat
  | [], acc => some acc
  | c :: r, acc =>
    match hexVal c with
    | none => none
    | some d =>
      if acc * 16 + d < 2 ^ 64 then parseHexAcc r (acc * 16 + d) else none

/-- Go `strconv.ParseUint(s, 16, 64)`: the empty string is a syntax
error; otherwise every character must be a hex digit and the value must
fit in 64 bits. -/
def parseHexU64 (s : String) : Option Nat :=
  if s.data = [] then none else parseHexAcc s.data 0

/-- One entry yielded by `filepath.WalkDir` over the `bands`
subdirectory: its base name, whether it is a directory, the size
reported by `d.Info()`, and whether that `Info` call succeeded. -/
structure Entry where
  name : String
  isDir : Bool
  size : Nat
  infoOk : Bool
deriving DecidableEq, Repr

/-- The `WalkDir` callback of `enumBands`, applied to the discovery
sequence in walk order: directories are skipped, a base name that fails
to parse as hex is a fatal error, a failed `Info` call is a fatal
error, and every other entry becomes a `band` with
`offset = id * bandSizeInBytes` (`uint64` multiplication). -/
def walkBands (bandSizeInBytes : Nat) : List Entry → Option (List Band)
  | [] => some []
  | e :: r =>
    if e.isDir then walkBands bandSizeInBytes r
    else
      match parseHexU64 e.name with
      | none => none
      | some id =>
        if e.infoOk then
          match walkBands bandSizeInBytes r with
          | none => none
          | some bs =>
            some ({ path := e.name, id := id, offset := umul id bandSizeInBytes,
                    size := e.size, attached := false, dev := "" } :: bs)
        else none

/-- Go `int64(u)` for a `uint64` value `u`: reinterpret the bit pattern. -/
def toInt64 (n : Nat) : Int := if n < 2 ^ 63 then (n : Int) else (n : Int) - 2 ^ 64

/-- Wrap an integer into `int64` range, as Go's `int64` subtraction
does. -/
def wrap64 (z : Int) : Int := (z + 2 ^ 63) % 2 ^ 64 - 2 ^ 63

/-- The comparison function passed to `slices.SortFunc` in `enumBands`:
`int(int64(a.offset) - int64(b.offset))` on a 64-bit platform (where
`int` is 64 bits wide, so the outer conversion is the identity).  The
`int64` subtraction wraps, so the sign is wrong when the true difference
falls outside `int64` range. -/
def cmpBand (a b : Band) : Int := wrap64 (toInt64 a.offset - toInt64 b.offset)

/-- Insertion into the reverse of an already-processed prefix, moving
the new element left past every neighbour that compares greater:
the inner `for j := i; j > a && cmp(data[j], data[j-1]) < 0; j--` loop
of Go's insertion sort. -/
def insertRev (x : Band) : List Band → List Band
  | [] => [x]
  | y :: ys => if cmpBand x y < 0 then y :: insertRev x ys else x :: y :: ys

/-- `slices.SortFunc(bands, cmpBand)`.  Go uses pdqsort, which for
slices of fewer than 12 elements is exactly this left-to-right insertion
sort; for longer slices pdqsort promises only some permutation that is
sorted with respect to the comparison (when it is a valid ordering),
which this function also produces. -/
def goSortBands (l : List Band) : List Band :=
  (l.foldl (fun acc x => insertRev x acc) []).reverse

/-- `enumBands` of `main.go`: walk the `bands` directory, then sort by
the (wrapping) offset comparison. -/
def enumBands (entries : List Entry) (bandSizeInBytes : Nat) : Option (List Band) :=
  (walkBands bandSizeInBytes entries).map goSortBands

/-- The fields of `sparseBundleHeader` that are integers in the property
document (the string-typed bundle-type and version metadata are read
but unused by the core and are not modelled). -/
structure SparseBundleHeader where
  bandSize : Nat
  backingStoreVersion : Nat
  size : Nat
deriving DecidableEq, Repr

/-- Key lookup in the modelled property document (a finite list of
integer-valued keys). -/
def lookupKey (doc : List (String × Nat)) (k : String) : Option Nat :=
  (doc.find? (fun kv => kv.1 == k)).map (fun kv => kv.2)

/-- The `plist.Decoder.Decode(&b.h)` call of `readBundle`, for a
well-formed dictionary document with integer values: a struct field
whose plist key is present is assigned that value, a field whose key is
absent keeps its Go zero value, and no error is returned.  In
particular a document with no `band-size` key decodes successfully to a
header with `bandSize = 0`. -/
def decodeHeader (doc : List (String × Nat)) : SparseBundleHeader :=
  { bandSize := (lookupKey doc "band-size").getD 0
    backingStoreVersion := (lookupKey doc "bundle-backingstore-version").getD 0
    size := (lookupKey doc "size").getD 0 }

/-- The on-disk inputs `readBundle` consumes: the `Info.plist` document
(`none` when the file cannot be opened or decoded) and the walk of the
`bands` subdirectory. -/
structure BundleFS where
  infoDoc : Option (List (String × Nat))
  entries : List Entry

/-- `readBundle` of `main.go`: open and decode `Info.plist`, then
enumerate the bands with the decoded band size.  No validation is
applied to the decoded header fields. -/
def readBundle (fs : BundleFS) : Option (SparseBundleHeader × List Band) :=
  match fs.infoDoc with
  | none => none
  | some doc =>
    match enumBands fs.entries (decodeHeader doc).bandSize with
    | none => none
    | some bands => some (decodeHeader doc, bands)

/-! ## Arithmetic facts about the wrapped operations -/

theorem usub_of_le {a b : Nat} (h : b ≤ a) (ha : a < 2 ^ 64) : usub a b = a - b := by
  unfold usub
  rw [Nat.mod_eq_of_lt ha, Nat.mod_eq_of_lt (Nat.lt_of_le_of_lt h ha)]
  omega

theorem usub_of_gt {a b : Nat} (h : a < b) (hb : b < 2 ^ 64) :
    usub a b = 2 ^ 64 - (b - a) := by
  unfold usub
  rw [Nat.mod_eq_of_lt (Nat.lt_trans h hb), Nat.mod_eq_of_lt hb]
  omega

theorem uadd_eq {a b : Nat} (h : a + b < 2 ^ 64) : uadd a b = a + b := by
  unfold uadd
  exact Nat.mod_eq_of_lt h

/-! ## Coverage predicate lemmas -/

theorem contiguousFromB_nil {a b : Nat} : contiguousFromB a [] b = true ↔ a = b := by
  simp [contiguousFromB]

theorem contiguousFromB_cons {a b : Nat} {e : Table} {ts : List Table} :
    contiguousFromB a (e :: ts) b = true ↔
      e.start = a ∧ contiguousFromB (a + e.len) ts b = true := by
  simp [contiguousFromB]

theorem contiguousFromB_append {ts ts2 : List Table} :
    ∀ {a b c : Nat}, contiguousFromB a ts b = true → contiguousFromB b ts2 c = true →
      contiguousFromB a (ts ++ ts2) c = true := by
  induction ts with
  | nil =>
    intro a b c h1 h2
    rw [contiguousFromB_nil] at h1
    simpa [h1] using h2
  | cons e rest ih =>
    intro a b c h1 h2
    rw [contiguousFromB_cons] at h1
    rw [List.cons_append, contiguousFromB_cons]
    exact ⟨h1.1, ih h1.2 h2⟩

/-- A byte position inside a contiguously covered range that no linear
extent covers is covered by some zero extent. -/
theorem zero_covers {ts : List Table} :
    ∀ {a b x : Nat}, contiguousFromB a ts b = true → a ≤ x → x < b →
      (∀ s l d, Table.linear s l d ∈ ts → x < s ∨ s + l ≤ x) →
      ∃ s l, Table.zero s l ∈ ts ∧ s ≤ x ∧ x < s + l := by
  induction ts with
  | nil =>
    intro a b x h hax hxb _
    rw [contiguousFromB_nil] at h
    omega
  | cons e rest ih =>
    intro a b x h hax hxb hlin
    rw [contiguousFromB_cons] at h
    by_cases hx : x < a + e.len
    · cases e with
      | zero s l =>
        have hs : s = a := h.1
        simp only [Table.len] at hx
        exact ⟨s, l, List.mem_cons_self _ _, by omega, by omega⟩
      | linear s l d =>
        have hs : s = a := h.1
        have := hlin s l d (List.mem_cons_self _ _)
        simp [Table.len] at hx
        omega
    · have ⟨s, l, hm, h1, h2⟩ :=
        ih h.2 (by omega) hxb (fun s l d hd => hlin s l d (List.mem_cons_of_mem _ hd))
      exact ⟨s, l, List.mem_cons_of_mem _ hm, h1, h2⟩

/-! ## Characterizing the attach loop -/

/-- How the attach loop's iteration `i` leaves the band it processes:
untouched in no-op mode or on a failed attach, otherwise marked attached
with its loop device recorded. -/
def updBand (env : Env) (i : Nat) (b : Band) : Band :=
  if env.noOp then b
  else
    match env.attach i with
    | none => b
    | some p => { b with dev := p, attached := true }

/-- The band list as left behind by the attach loop starting at
iteration index `i`. -/
def mapIdxBand (env : Env) : Nat → List Band → List Band
  | _, [] => []
  | i, b :: r => updBand env i b :: mapIdxBand env (i + 1) r

theorem attachStep_fst (env : Env) (i : Nat) (b : Band) (c : Nat) :
    (attachStep env.noOp (env.attach i) b c).1 = updBand env i b := by
  unfold attachStep updBand
  by_cases h : env.noOp = true
  · simp [h]
  · cases hatt : env.attach i <;> simp [h, hatt]

theorem mkExtents_contiguous {b : Band} {c : Nat} (d : String)
    (h1 : c ≤ b.offset) (h2 : b.offset + b.size < 2 ^ 64) :
    contiguousFromB c (mkExtents b c d) (b.offset + b.size) = true := by
  unfold mkExtents
  by_cases hc : c = b.offset
  · subst hc
    simp [contiguousFromB, Table.start, Table.len]
  · have hu : usub b.offset c = b.offset - c := usub_of_le h1 (by omega)
    simp [hc, contiguousFromB, Table.start, Table.len, hu, Nat.add_sub_cancel' h1]

theorem mem_mkExtents_linear {s l : Nat} {d' : String} {b : Band} {c : Nat} {d : String}
    (h : Table.linear s l d' ∈ mkExtents b c d) : s = b.offset ∧ l = b.size ∧ d' = d := by
  unfold mkExtents at h
  rcases List.mem_append.1 h with h | h
  · split at h <;> simp_all
  · simp_all

/-- Main specification of the attach loop on a well-formed band list:
it never errors when the context is not cancelled, it leaves behind
exactly the `updBand` image of the bands, the emitted extents tile
`[c, c')` for a final cursor `c' ≤ T`, and every linear extent it emits
belongs to a band whose attach was performed (successfully, or skipped
in no-op mode). -/
theorem attachAux_spec (env : Env) (T : Nat)
    (hnc : ∀ n, env.cancelled n = false) (hT : T < 2 ^ 64) :
    ∀ (bands : List Band) (i c : Nat),
      List.Pairwise (fun a b => a.offset + a.size ≤ b.offset) bands →
      (∀ b ∈ bands, c ≤ b.offset) →
      (∀ b ∈ bands, b.offset + b.size ≤ T) →
      c ≤ T →
      ∃ ts c',
        attachBandsAux env bands i c = .ok (mapIdxBand env i bands) ts c' ∧
        contiguousFromB c ts c' = true ∧
        c ≤ c' ∧ c' ≤ T ∧
        (∀ s l d, Table.linear s l d ∈ ts →
          ∃ j bj, bands[j]? = some bj ∧ s = bj.offset ∧ l = bj.size ∧
            (env.noOp = true ∨ env.attach (i + j) = some d)) := by
  intro bands
  induction bands with
  | nil =>
    intro i c _ _ _ hcT
    exact ⟨[], c, by simp [attachBandsAux, mapIdxBand], by simp [contiguousFromB],
      Nat.le_refl c, hcT, by simp⟩
  | cons b rest ih =>
    intro i c hpw hoff hend hcT
    have hb_off : c ≤ b.offset := hoff b (List.mem_cons_self _ _)
    have hb_end : b.offset + b.size ≤ T := hend b (List.mem_cons_self _ _)
    have hrest_pw := (List.pairwise_cons.1 hpw).2
    have hhead := (List.pairwise_cons.1 hpw).1
    have hrest_end : ∀ b' ∈ rest, b'.offset + b'.size ≤ T :=
      fun b' hb' => hend b' (List.mem_cons_of_mem _ hb')
    by_cases hskip : env.noOp = false ∧ env.attach i = none
    · -- failed attach: `continue`, nothing emitted, cursor unchanged
      have hb' : updBand env i b = b := by
        unfold updBand
        simp [hskip.1, hskip.2]
      have hrest_off : ∀ b' ∈ rest, c ≤ b'.offset :=
        fun b' hb' => hoff b' (List.mem_cons_of_mem _ hb')
      obtain ⟨ts2, c', heq, hcov, hle, hle2, horg⟩ :=
        ih (i + 1) c hrest_pw hrest_off hrest_end hcT
      refine ⟨ts2, c', ?_, hcov, hle, hle2, ?_⟩
      · simp only [attachBandsAux, hnc i, Bool.false_eq_true, if_false,
          attachStep, hskip.1, hskip.2, heq, mapIdxBand, hb', List.nil_append]
      · intro s l d hmem
        obtain ⟨j, bj, hj, hs, hl, hd⟩ := horg s l d hmem
        refine ⟨j + 1, bj, ?_, hs, hl, ?_⟩
        · simpa using hj
        · rcases hd with hd | hd
          · exact Or.inl hd
          · exact Or.inr (by simpa [Nat.add_assoc, Nat.add_comm 1 j] using hd)
    · -- extents are emitted (no-op mode or successful attach)
      obtain ⟨d, hstep, hdisj⟩ :
          ∃ d, attachStep env.noOp (env.attach i) b c =
            (updBand env i b, mkExtents b c d, uadd b.offset b.size) ∧
            (env.noOp = true ∨ env.attach i = some d) := by
        unfold attachStep updBand
        by_cases h : env.noOp = true
        · exact ⟨"dummy", by simp [h], Or.inl h⟩
        · cases hatt : env.attach i with
          | none => exact absurd ⟨by simpa using h, hatt⟩ hskip
          | some p => exact ⟨p, by simp [h, hatt], Or.inr rfl⟩
      have hc2 : uadd b.offset b.size = b.offset + b.size := uadd_eq (by omega)
      have hrest_off : ∀ b' ∈ rest, b.offset + b.size ≤ b'.offset := hhead
      obtain ⟨ts2, c', heq, hcov, hle, hle2, horg⟩ :=
        ih (i + 1) (b.offset + b.size) hrest_pw hrest_off hrest_end hb_end
      refine ⟨mkExtents b c d ++ ts2, c', ?_, ?_, ?_, hle2, ?_⟩
      · simp only [attachBandsAux, hnc i, Bool.false_eq_true, if_false, hstep,
          hc2, heq, mapIdxBand]
      · exact contiguousFromB_append (mkExtents_contiguous d hb_off (by omega)) hcov
      · omega
      · intro s l d' hmem
        rcases List.mem_append.1 hmem with hmem | hmem
        · obtain ⟨hs, hl, hd'⟩ := mem_mkExtents_linear hmem
          exact ⟨0, b, by simp, hs, hl, by simpa [hd'] using hdisj⟩
        · obtain ⟨j, bj, hj, hs, hl, hd⟩ := horg s l d' hmem
          refine ⟨j + 1, bj, by simpa using hj, hs, hl, ?_⟩
          rcases hd with hd | hd
          · exact Or.inl hd
          · exact Or.inr (by simpa [Nat.add_assoc, Nat.add_comm 1 j] using hd)

/-- Top-level specification of `attachBandsAndPrepareTable` on a
well-formed band list: the returned table tiles `[0, T)` exactly, and
every linear extent belongs to a band that was attached (or to any band
in no-op mode). -/
theorem attachTable_spec (env : Env) (bands : List Band) (T : Nat)
    (hnc : ∀ n, env.cancelled n = false) (hT : T < 2 ^ 64)
    (hpw : List.Pairwise (fun a b => a.offset + a.size ≤ b.offset) bands)
    (hend : ∀ b ∈ bands, b.offset + b.size ≤ T) :
    ∃ table,
      attachBandsAndPrepareTable env bands T = .ok (mapIdxBand env 0 bands) table ∧
      contiguousFromB 0 table T = true ∧
      (∀ s l d, Table.linear s l d ∈ table →
        ∃ j bj, bands[j]? = some bj ∧ s = bj.offset ∧ l = bj.size ∧
          (env.noOp = true ∨ env.attach j = some d)) := by
  obtain ⟨ts, c', heq, hcov, hc0, hcT, horg⟩ :=
    attachAux_spec env T hnc hT bands 0 0 hpw (fun b _ => Nat.zero_le _) hend (Nat.zero_le _)
  have horg' : ∀ s l d, Table.linear s l d ∈ ts →
      ∃ j bj, bands[j]? = some bj ∧ s = bj.offset ∧ l = bj.size ∧
        (env.noOp = true ∨ env.attach j = some d) := by
    intro s l d hmem
    obtain ⟨j, bj, hj, hs, hl, hd⟩ := horg s l d hmem
    exact ⟨j, bj, hj, hs, hl, by simpa using hd⟩
  by_cases hc : c' = T
  · subst hc
    refine ⟨ts, ?_, hcov, horg'⟩
    simp [attachBandsAndPrepareTable, heq]
  · have hlt : c' < T := Nat.lt_of_le_of_ne hcT hc
    have hu : usub T c' = T - c' := usub_of_le (Nat.le_of_lt hlt) hT
    refine ⟨ts ++ [Table.zero c' (usub T c')], ?_, ?_, ?_⟩
    · simp [attachBandsAndPrepareTable, heq, hc]
    · refine contiguousFromB_append hcov ?_
      simp [contiguousFromB, Table.start, Table.len, hu, Nat.add_sub_cancel' (Nat.le_of_lt hlt)]
    · intro s l d hmem
      rcases List.mem_append.1 hmem with hmem | hmem
      · exact horg' s l d hmem
      · simp at hmem

/-- **C1**: for every total size `T < 2 ^ 64` and every band list that
is sorted ascending by offset and non-overlapping (each band ends at or
before the next one's offset) with every band ending at or before `T`,
the extent table returned by `attachBandsAndPrepareTable` covers
`[0, T)` exactly once: the first extent starts at 0, each extent starts
where the previous one ends, and the last extent ends exactly at `T`
(regardless of no-op mode or which attach calls succeed). -/
theorem C1_coverage (env : Env) (bands : List Band) (T : Nat)
    (hnc : ∀ n, env.cancelled n = false) (hT : T < 2 ^ 64)
    (hpw : List.Pairwise (fun a b => a.offset + a.size ≤ b.offset) bands)
    (hend : ∀ b ∈ bands, b.offset + b.size ≤ T) :
    ∃ bs table,
      attachBandsAndPrepareTable env bands T = .ok bs table ∧
      contiguousFromB 0 table T = true := by
  obtain ⟨table, heq, hcov, _⟩ := attachTable_spec env bands T hnc hT hpw hend
  exact ⟨_, table, heq, hcov⟩

/-- Witness for C1: the spec's worked scenario — band size 4096, total
size 12288, bands `0000` (4096 bytes) and `0002` (2048 bytes), band
`0001` missing. -/
def wEnvNoOp : Env :=
  { noOp := true, attach := fun _ => none, cancelled := fun _ => false,
    cancelDetach := fun _ => true, createOk := true }

/-- Concrete bands used by several witnesses. -/
def wBands : List Band :=
  [{ path := "0", id := 0, offset := 0, size := 4096, attached := false, dev := "" },
   { path := "2", id := 2, offset := 8192, size := 2048, attached := false, dev := "" }]

theorem C1_coverage_witness :
    ∃ bs table,
      attachBandsAndPrepareTable wEnvNoOp wBands 12288 = .ok bs table ∧
      contiguousFromB 0 table 12288 = true :=
  C1_coverage wEnvNoOp wBands 12288 (fun _ => rfl) (by norm_num)
    (by simp [wBands]) (by simp [wBands])

/-- The attach loop cannot fail for any reason other than cancellation:
it performs no validation of its input bands. -/
theorem attachAux_ok_exists (env : Env) (hnc : ∀ n, env.cancelled n = false) :
    ∀ (bands : List Band) (i c : Nat), ∃ bs ts c',
      attachBandsAux env bands i c = .ok bs ts c' := by
  intro bands
  induction bands with
  | nil => exact fun i c => ⟨[], [], c, rfl⟩
  | cons b rest ih =>
    intro i c
    rcases hstep : attachStep env.noOp (env.attach i) b c with ⟨b', ts1, last'⟩
    obtain ⟨bs, ts, c', heq⟩ := ih (i + 1) last'
    refine ⟨b' :: bs, ts1 ++ ts, c', ?_⟩
    simp only [attachBandsAux, hnc i, Bool.false_eq_true, if_false, hstep, heq]

/-- **C10**: `attachBandsAndPrepareTable` never validates that the bands
end within the declared total size.  For any band list it returns
without error (when not cancelled), and when the final cursor `c`
differs from `bundleSize` it appends a trailing `Zero` extent of length
`usub bundleSize c`, which for `c > bundleSize` equals
`2 ^ 64 - (c - bundleSize)` — the `uint64` subtraction wrapped modulo
`2 ^ 64` — instead of rejecting the oversized bundle. -/
theorem C10_oversized_bundle (env : Env) (bands : List Band) (T : Nat)
    (hnc : ∀ n, env.cancelled n = false) :
    ∃ bs ts c,
      attachBandsAux env bands 0 0 = .ok bs ts c ∧
      attachBandsAndPrepareTable env bands T =
        .ok bs (ts ++ (if c = T then [] else [Table.zero c (usub T c)])) ∧
      (T < c → c < 2 ^ 64 → usub T c = 2 ^ 64 - (c - T)) := by
  obtain ⟨bs, ts, c, heq⟩ := attachAux_ok_exists env hnc bands 0 0
  refine ⟨bs, ts, c, heq, ?_, fun h1 h2 => usub_of_gt h1 h2⟩
  by_cases hc : c = T <;> simp [attachBandsAndPrepareTable, heq, hc]

/-- Witness for C10: a single 100-byte band at offset 0 against a
declared total size of only 50 bytes; the trailing zero extent's length
is the wrapped value `2 ^ 64 - 50`. -/
def wBandOversized : List Band :=
  [{ path := "0", id := 0, offset := 0, size := 100, attached := false, dev := "" }]

theorem C10_oversized_bundle_witness :
    ∃ bs ts c,
      attachBandsAux wEnvNoOp wBandOversized 0 0 = .ok bs ts c ∧
      attachBandsAndPrepareTable wEnvNoOp wBandOversized 50 =
        .ok bs (ts ++ (if c = 50 then [] else [Table.zero c (usub 50 c)])) ∧
      (50 < c → c < 2 ^ 64 → usub 50 c = 2 ^ 64 - (c - 50)) :=
  C10_oversized_bundle wEnvNoOp wBandOversized 50 (fun _ => rfl)

/-- The environment of a session whose attach calls all succeed (with
loop device `"d"`) and which is never cancelled. -/
def cEnvAttach : Env :=
  { noOp := false, attach := fun _ => some "d", cancelled := fun _ => false,
    cancelDetach := fun _ => true, createOk := true }

/-- Two overlapping bands: `[0, 100)` and `[50, 60)`. -/
def cBandsOverlap : List Band :=
  [{ path := "a", id := 0, offset := 0, size := 100, attached := false, dev := "" },
   { path := "b", id := 1, offset := 50, size := 10, attached := false, dev := "" }]

/-- **C2 counterexample**: on overlapping bands the builder raises no
structural error at all.  With the cursor at 100 and the next band at
offset 50 it emits a `Zero` extent whose length is the wrapped
subtraction `2 ^ 64 - 50`, returns `ok`, and has already acquired both
bands' resources (`attached := true`), contradicting the claim that a
structural error is raised before any resource is acquired. -/
theorem C2_counterexample :
    attachBandsAndPrepareTable cEnvAttach cBandsOverlap 200 =
      .ok [{ path := "a", id := 0, offset := 0, size := 100, attached := true, dev := "d" },
           { path := "b", id := 1, offset := 50, size := 10, attached := true, dev := "d" }]
          [Table.linear 0 100 "d",
           Table.zero 100 (2 ^ 64 - 50),
           Table.linear 50 10 "d",
           Table.zero 60 140] := by
  decide

/-- **C2 (amended)**: the builder performs no overlap detection.  For
every non-cancelled input it returns `ok` (there is no structural-error
path), and when the cursor `c` already exceeds a band's offset, the
iteration that successfully attaches that band emits a `Zero` extent of
wrapped length `2 ^ 64 - (c - offset)` — the unsigned subtraction
`offset - c` wrapped modulo `2 ^ 64` — after the resource has been
acquired. -/
theorem C2_amended :
    (∀ (env : Env) (bands : List Band) (T : Nat), (∀ n, env.cancelled n = false) →
      ∃ bs table, attachBandsAndPrepareTable env bands T = .ok bs table) ∧
    (∀ (b : Band) (c : Nat) (p : String), b.offset < c → c < 2 ^ 64 →
      attachStep false (some p) b c =
        ({ b with dev := p, attached := true },
         [Table.zero c (2 ^ 64 - (c - b.offset)), Table.linear b.offset b.size p],
         uadd b.offset b.size)) := by
  constructor
  · intro env bands T hnc
    obtain ⟨bs, ts, c, heq⟩ := attachAux_ok_exists env hnc bands 0 0
    refine ⟨bs, ts ++ (if c ≠ T then [Table.zero c (usub T c)] else []), ?_⟩
    unfold attachBandsAndPrepareTable
    rw [heq]
  · intro b c p h1 h2
    have hu : usub b.offset c = 2 ^ 64 - (c - b.offset) := usub_of_gt h1 h2
    have hne : c ≠ b.offset := by omega
    simp [attachStep, mkExtents, hne, hu]

theorem C2_amended_witness :
    (∃ bs table, attachBandsAndPrepareTable cEnvAttach cBandsOverlap 200 = .ok bs table) ∧
    attachStep false (some "d")
      { path := "b", id := 1, offset := 50, size := 10, attached := false, dev := "" } 100 =
      ({ path := "b", id := 1, offset := 50, size := 10, attached := true, dev := "d" },
       [Table.zero 100 (2 ^ 64 - 50), Table.linear 50 10 "d"], uadd 50 10) :=
  ⟨C2_amended.1 cEnvAttach cBandsOverlap 200 (fun _ => rfl),
   C2_amended.2 { path := "b", id := 1, offset := 50, size := 10, attached := false, dev := "" }
     100 "d" (by norm_num) (by norm_num)⟩

/-- **C9**: when a band's attach fails, the loop body leaves the cursor
unchanged and emits nothing for that band, and — on a sorted,
non-overlapping band list ending at or before `T` — the failed band's
byte range is still covered, by a `Zero` extent of the returned table
(the code resolves the spec's open question in favour of zero-fill),
and the table still tiles `[0, T)` exactly. -/
theorem C9_zero_fill_on_failed_attach (env : Env) (bands : List Band) (T k : Nat) (bk : Band)
    (hno : env.noOp = false)
    (hnc : ∀ n, env.cancelled n = false) (hT : T < 2 ^ 64)
    (hpw : List.Pairwise (fun a b => a.offset + a.size ≤ b.offset) bands)
    (hend : ∀ b ∈ bands, b.offset + b.size ≤ T)
    (hk : bands[k]? = some bk)
    (hfail : env.attach k = none) :
    (∀ c : Nat, attachStep env.noOp (env.attach k) bk c = (bk, [], c)) ∧
    ∃ bs table,
      attachBandsAndPrepareTable env bands T = .ok bs table ∧
      contiguousFromB 0 table T = true ∧
      ∀ x, bk.offset ≤ x → x < bk.offset + bk.size →
        ∃ s l, Table.zero s l ∈ table ∧ s ≤ x ∧ x < s + l := by
  refine ⟨fun c => by simp [attachStep, hno, hfail], ?_⟩
  obtain ⟨table, heq, hcov, horg⟩ := attachTable_spec env bands T hnc hT hpw hend
  refine ⟨_, table, heq, hcov, ?_⟩
  intro x hx1 hx2
  have hkmem : bk ∈ bands := List.getElem?_mem hk
  have hxT : x < T := Nat.lt_of_lt_of_le hx2 (hend bk hkmem)
  obtain ⟨hklen, hkget⟩ := List.getElem?_eq_some.1 hk
  refine zero_covers hcov (Nat.zero_le x) hxT ?_
  intro s l d hmem
  obtain ⟨j, bj, hj, hs, hl, hd⟩ := horg s l d hmem
  rcases hd with hd | hd
  · rw [hno] at hd; exact absurd hd (by simp)
  · obtain ⟨hjlen, hjget⟩ := List.getElem?_eq_some.1 hj
    have hjk : j ≠ k := fun he => by
      rw [he, hfail] at hd
      exact Option.noConfusion hd
    rcases Nat.lt_or_ge j k with hlt | hge
    · -- band j precedes band k: its extent ends at or before bk.offset
      have := List.pairwise_iff_getElem.1 hpw j k hjlen hklen hlt
      rw [hjget, hkget] at this
      right
      omega
    · have hgt : k < j := Nat.lt_of_le_of_ne hge (Ne.symm hjk)
      have := List.pairwise_iff_getElem.1 hpw k j hklen hjlen hgt
      rw [hjget, hkget] at this
      left
      omega

/-- Witness for C9: the attach of the middle band (index 1) fails;
its range `[4096, 8192)` must be zero-covered. -/
def wEnvFail1 : Env :=
  { noOp := false, attach := fun n => if n = 1 then none else some "d",
    cancelled := fun _ => false, cancelDetach := fun _ => true, createOk := true }

/-- Three contiguous bands of 4096 bytes each. -/
def wBands3 : List Band :=
  [{ path := "0", id := 0, offset := 0, size := 4096, attached := false, dev := "" },
   { path := "1", id := 1, offset := 4096, size := 4096, attached := false, dev := "" },
   { path := "2", id := 2, offset := 8192, size := 4096, attached := false, dev := "" }]

theorem C9_zero_fill_on_failed_attach_witness :
    (∀ c : Nat, attachStep wEnvFail1.noOp (wEnvFail1.attach 1)
        { path := "1", id := 1, offset := 4096, size := 4096, attached := false, dev := "" } c =
        ({ path := "1", id := 1, offset := 4096, size := 4096, attached := false, dev := "" },
         [], c)) ∧
    ∃ bs table,
      attachBandsAndPrepareTable wEnvFail1 wBands3 12288 = .ok bs table ∧
      contiguousFromB 0 table 12288 = true ∧
      ∀ x, 4096 ≤ x → x < 4096 + 4096 →
        ∃ s l, Table.zero s l ∈ table ∧ s ≤ x ∧ x < s + l :=
  C9_zero_fill_on_failed_attach wEnvFail1 wBands3 12288 1
    { path := "1", id := 1, offset := 4096, size := 4096, attached := false, dev := "" }
    rfl (fun _ => rfl) (by norm_num) (by simp [wBands3]) (by simp [wBands3])
    (by simp [wBands3]) rfl

/-! ## Release (`detachBands`) -/

theorem band_set_attached_self {b : Band} (h : b.attached = false) :
    { b with attached := false } = b := by
  cases b
  simp_all

/-- `Detach` is called on exactly the attached bands, in order,
whatever the call outcomes are. -/
theorem detachAux_trace (det : Nat → Bool) :
    ∀ (bands : List Band) (i : Nat),
      (detachBandsAux det bands i).2.2 =
        (bands.filter (fun b => b.attached)).map (fun b => b.dev) := by
  intro bands
  induction bands with
  | nil => intro i; simp [detachBandsAux]
  | cons b r ih =>
    intro i
    by_cases hb : b.attached = true
    · by_cases hd : det i = true <;>
        simp [detachBandsAux, hb, hd, ih (i + 1)]
    · simp [detachBandsAux, hb, ih (i + 1)]

/-- A detach pass whose `Detach` calls all succeed: every band ends up
unattached, the pass reports success, and the calls made are exactly
the attached bands' devices. -/
theorem detachAux_allOk {det : Nat → Bool} (hdet : ∀ n, det n = true) :
    ∀ (bands : List Band) (i : Nat),
      detachBandsAux det bands i =
        (bands.map (fun b => { b with attached := false }), false,
         (bands.filter (fun b => b.attached)).map (fun b => b.dev)) := by
  intro bands
  induction bands with
  | nil => intro i; simp [detachBandsAux]
  | cons b r ih =>
    intro i
    by_cases hb : b.attached = true
    · simp [detachBandsAux, hb, hdet i, ih (i + 1)]
    · simp [detachBandsAux, hb, ih (i + 1),
        band_set_attached_self (by simpa using hb)]

/-- Unfolding equation of the release loop on a non-empty band list. -/
theorem detachAux_cons (det : Nat → Bool) (b : Band) (r : List Band) (i : Nat) :
    detachBandsAux det (b :: r) i =
      if b.attached then
        if det i then
          ({ b with attached := false } :: (detachBandsAux det r (i + 1)).1,
           (detachBandsAux det r (i + 1)).2.1,
           b.dev :: (detachBandsAux det r (i + 1)).2.2)
        else
          (b :: (detachBandsAux det r (i + 1)).1, true,
           b.dev :: (detachBandsAux det r (i + 1)).2.2)
      else
        (b :: (detachBandsAux det r (i + 1)).1,
         (detachBandsAux det r (i + 1)).2.1,
         (detachBandsAux det r (i + 1)).2.2) := rfl

/-- A pass that reports success leaves no band attached. -/
theorem detachAux_flag_false (det : Nat → Bool) :
    ∀ (bands : List Band) (i : Nat),
      (detachBandsAux det bands i).2.1 = false →
      ∀ b ∈ (detachBandsAux det bands i).1, b.attached = false := by
  intro bands
  induction bands with
  | nil =>
    intro i _ x hx
    simp [detachBandsAux] at hx
  | cons b r ih =>
    intro i hf x hx
    rw [detachAux_cons] at hf hx
    by_cases hb : b.attached = true
    · by_cases hd : det i = true
      · simp only [hb, hd, if_true] at hf hx
        rcases List.mem_cons.1 hx with rfl | hx
        · simp
        · exact ih (i + 1) hf x hx
      · simp [hb, hd] at hf
    · simp only [hb, Bool.false_eq_true, if_false] at hf hx
      rcases List.mem_cons.1 hx with rfl | hx
      · simpa using hb
      · exact ih (i + 1) hf x hx

/-- Releasing bands none of which is attached is a no-op: no error, no
`Detach` call, bands unchanged. -/
theorem detachBands_noAttached (det : Nat → Bool) (bands : List Band)
    (h : ∀ b ∈ bands, b.attached = false) :
    detachBands det bands = (bands, false, []) := by
  unfold detachBands
  have : ∀ (l : List Band) (i : Nat), (∀ b ∈ l, b.attached = false) →
      detachBandsAux det l i = (l, false, []) := by
    intro l
    induction l with
    | nil => intro i _; simp [detachBandsAux]
    | cons b r ih =>
      intro i hl
      have hb : b.attached = false := hl b (List.mem_cons_self _ _)
      simp [detachBandsAux, hb, ih (i + 1) (fun x hx => hl x (List.mem_cons_of_mem _ hx))]
  exact this bands 0 h

/-- **C6**: release is idempotent with respect to the `attached` flag.
Releasing bands none of which is attached is a no-op (no error, no
`Detach` call); and immediately after a fully successful release pass, a
second pass — with any detach outcomes — reports no error and issues no
`Detach` call at all, so no handle is ever detached twice. -/
theorem C6_idempotent_release :
    (∀ (det : Nat → Bool) (bands : List Band),
      (∀ b ∈ bands, b.attached = false) →
      detachBands det bands = (bands, false, [])) ∧
    (∀ (det1 det2 : Nat → Bool) (bands bs : List Band) (tr : List String),
      detachBands det1 bands = (bs, false, tr) →
      detachBands det2 bs = (bs, false, [])) := by
  refine ⟨detachBands_noAttached, ?_⟩
  intro det1 det2 bands bs tr h
  have h1 : (detachBandsAux det1 bands 0).1 = bs := congrArg Prod.fst h
  have h2 : (detachBandsAux det1 bands 0).2.1 = false := congrArg (fun t => t.2.1) h
  refine detachBands_noAttached det2 bs ?_
  rw [← h1]
  exact detachAux_flag_false det1 bands 0 h2

/-- Witness bands for the release claims: one attached band, one never
attached. -/
def wBandsDetach : List Band :=
  [{ path := "0", id := 0, offset := 0, size := 10, attached := true, dev := "/dev/loop7" },
   { path := "1", id := 1, offset := 10, size := 10, attached := false, dev := "" }]

theorem C6_idempotent_release_witness :
    detachBands (fun _ => true)
        [{ path := "1", id := 1, offset := 10, size := 10, attached := false, dev := "" }] =
      ([{ path := "1", id := 1, offset := 10, size := 10, attached := false, dev := "" }],
       false, []) ∧
    detachBands (fun _ => false)
        [{ path := "0", id := 0, offset := 0, size := 10, attached := false, dev := "/dev/loop7" },
         { path := "1", id := 1, offset := 10, size := 10, attached := false, dev := "" }] =
      ([{ path := "0", id := 0, offset := 0, size := 10, attached := false, dev := "/dev/loop7" },
        { path := "1", id := 1, offset := 10, size := 10, attached := false, dev := "" }],
       false, []) :=
  ⟨C6_idempotent_release.1 (fun _ => true)
      [{ path := "1", id := 1, offset := 10, size := 10, attached := false, dev := "" }]
      (by decide),
   C6_idempotent_release.2 (fun _ => true) (fun _ => false) wBandsDetach
      [{ path := "0", id := 0, offset := 0, size := 10, attached := false, dev := "/dev/loop7" },
       { path := "1", id := 1, offset := 10, size := 10, attached := false, dev := "" }]
      ["/dev/loop7"] (by decide)⟩

theorem mapIdxBand_getElem? (env : Env) :
    ∀ (l : List Band) (i j : Nat),
      (mapIdxBand env i l)[j]? = (l[j]?).map (updBand env (i + j)) := by
  intro l
  induction l with
  | nil => intro i j; simp [mapIdxBand]
  | cons b r ih =>
    intro i j
    cases j with
    | zero => simp [mapIdxBand]
    | succ j =>
      have e : i + (j + 1) = i + 1 + j := by omega
      simp [mapIdxBand, ih (i + 1) j, e]

/-- **C5**: if exactly one band's attach fails (position `k`) and all
other attaches succeed, then the built table contains no `Linear`
extent at the failed band's offset, every other band comes out marked
attached (and the failed one stays unattached), and a subsequent
teardown pass whose `Detach` calls succeed unattaches every band,
issuing one `Detach` call per successfully bound band — each bound
band's device appears in the call trace. -/
theorem C5_single_bind_failure (env : Env) (bands : List Band) (T k : Nat) (bk : Band)
    (hno : env.noOp = false)
    (hnc : ∀ n, env.cancelled n = false) (hT : T < 2 ^ 64)
    (hpw : List.Pairwise (fun a b => a.offset + a.size ≤ b.offset) bands)
    (hend : ∀ b ∈ bands, b.offset + b.size ≤ T)
    (hsz : ∀ b ∈ bands, 0 < b.size)
    (hinit : ∀ b ∈ bands, b.attached = false)
    (hk : bands[k]? = some bk)
    (hfail : env.attach k = none)
    (hsucc : ∀ j, j < bands.length → j ≠ k → ∃ p, env.attach j = some p)
    (det : Nat → Bool) (hdet : ∀ n, det n = true) :
    ∃ table,
      attachBandsAndPrepareTable env bands T = .ok (mapIdxBand env 0 bands) table ∧
      (∀ l d, Table.linear bk.offset l d ∉ table) ∧
      (mapIdxBand env 0 bands)[k]? = some bk ∧ bk.attached = false ∧
      (∀ j bj, bands[j]? = some bj → j ≠ k →
        ∃ p, env.attach j = some p ∧
          (mapIdxBand env 0 bands)[j]? = some { bj with dev := p, attached := true } ∧
          p ∈ (detachBands det (mapIdxBand env 0 bands)).2.2) ∧
      detachBands det (mapIdxBand env 0 bands) =
        ((mapIdxBand env 0 bands).map (fun b => { b with attached := false }), false,
         ((mapIdxBand env 0 bands).filter (fun b => b.attached)).map (fun b => b.dev)) := by
  obtain ⟨table, heq, _, horg⟩ := attachTable_spec env bands T hnc hT hpw hend
  obtain ⟨hklen, hkget⟩ := List.getElem?_eq_some.1 hk
  have hdetach : detachBands det (mapIdxBand env 0 bands) =
      ((mapIdxBand env 0 bands).map (fun b => { b with attached := false }), false,
       ((mapIdxBand env 0 bands).filter (fun b => b.attached)).map (fun b => b.dev)) :=
    detachAux_allOk hdet (mapIdxBand env 0 bands) 0
  refine ⟨table, heq, ?_, ?_, hinit bk (List.getElem?_mem hk), ?_, hdetach⟩
  · -- no Linear extent at the failed band's offset
    intro l d hmem
    obtain ⟨j, bj, hj, hs, _, hd⟩ := horg bk.offset l d hmem
    rcases hd with hd | hd
    · rw [hno] at hd
      exact absurd hd Bool.false_ne_true
    · have hjk : j ≠ k := fun he => by
        rw [he, hfail] at hd
        exact Option.noConfusion hd
      obtain ⟨hjlen, hjget⟩ := List.getElem?_eq_some.1 hj
      rcases Nat.lt_or_ge j k with hlt | hge
      · have hp := List.pairwise_iff_getElem.1 hpw j k hjlen hklen hlt
        rw [hjget, hkget] at hp
        have := hsz bj (List.getElem?_mem hj)
        omega
      · have hgt : k < j := Nat.lt_of_le_of_ne hge (Ne.symm hjk)
        have hp := List.pairwise_iff_getElem.1 hpw k j hklen hjlen hgt
        rw [hjget, hkget] at hp
        have := hsz bk (List.getElem?_mem hk)
        omega
  · -- the failed band is carried through unchanged
    rw [mapIdxBand_getElem?, hk]
    simp [updBand, hno, hfail]
  · -- every other band is attached and its device is detached later
    intro j bj hj hjk
    obtain ⟨hjlen, _⟩ := List.getElem?_eq_some.1 hj
    obtain ⟨p, hp⟩ := hsucc j hjlen hjk
    have hjget' : (mapIdxBand env 0 bands)[j]? = some { bj with dev := p, attached := true } := by
      rw [mapIdxBand_getElem?, hj]
      simp [updBand, hno, hp]
    refine ⟨p, hp, hjget', ?_⟩
    rw [hdetach]
    have hmem : { bj with dev := p, attached := true } ∈ mapIdxBand env 0 bands :=
      List.getElem?_mem hjget'
    refine List.mem_map.2 ⟨{ bj with dev := p, attached := true }, ?_, rfl⟩
    exact List.mem_filter.2 ⟨hmem, rfl⟩

/-- The middle band of `wBands3` (the one whose attach `wEnvFail1`
fails). -/
def wBandMid : Band :=
  { path := "1", id := 1, offset := 4096, size := 4096, attached := false, dev := "" }

theorem C5_single_bind_failure_witness :
    ∃ table,
      attachBandsAndPrepareTable wEnvFail1 wBands3 12288 =
        .ok (mapIdxBand wEnvFail1 0 wBands3) table ∧
      (∀ l d, Table.linear wBandMid.offset l d ∉ table) ∧
      (mapIdxBand wEnvFail1 0 wBands3)[1]? = some wBandMid ∧ wBandMid.attached = false ∧
      (∀ j bj, wBands3[j]? = some bj → j ≠ 1 →
        ∃ p, wEnvFail1.attach j = some p ∧
          (mapIdxBand wEnvFail1 0 wBands3)[j]? = some { bj with dev := p, attached := true } ∧
          p ∈ (detachBands (fun _ => true) (mapIdxBand wEnvFail1 0 wBands3)).2.2) ∧
      detachBands (fun _ => true) (mapIdxBand wEnvFail1 0 wBands3) =
        ((mapIdxBand wEnvFail1 0 wBands3).map (fun b => { b with attached := false }), false,
         ((mapIdxBand wEnvFail1 0 wBands3).filter (fun b => b.attached)).map
           (fun b => b.dev)) :=
  C5_single_bind_failure wEnvFail1 wBands3 12288 1 wBandMid rfl (fun _ => rfl) (by norm_num)
    (by decide) (by decide) (by decide) (by decide) (by decide) rfl
    (by
      intro j hj hjk
      simp [wBands3] at hj
      interval_cases j
      · exact ⟨"d", rfl⟩
      · exact absurd rfl hjk
      · exact ⟨"d", rfl⟩)
    (fun _ => true) (fun _ => rfl)

/-! ## The teardown loop of `main` -/

/-- A band already attached to a loop device, as the teardown loop sees
it. -/
def c3Band : Band :=
  { path := "b0", id := 0, offset := 0, size := 10, attached := true, dev := "/dev/loop0" }

/-- A signal delivery whose detach pass fails. -/
def c3EvFail : SignalEvent := { removeOk := true, det := fun _ => false }

/-- A signal delivery whose detach pass succeeds. -/
def c3EvOk : SignalEvent := { removeOk := true, det := fun _ => true }

/-- **C3 counterexample**: with one attached band and a `Detach` that
always fails, two signals produce two failed teardown passes and the
third makes the loop break and `os.Exit(failures)` with `failures = 2`:
the exit status is 2, not 1 as the claim states (the detach trace shows
no third detach attempt was made). -/
theorem C3_counterexample :
    teardownLoop [c3EvFail, c3EvFail, c3EvFail] false 0 [c3Band] [] =
      (some 2, [c3Band], ["/dev/loop0", "/dev/loop0"]) ∧
    (some 2 : Option Nat) ≠ some 1 := by
  constructor
  · decide
  · decide

/-- **C3 (amended)**: after exactly 2 consecutive failed teardown
passes, the next termination signal makes the session stop without
issuing any further retraction or detach attempt (state and call trace
unchanged) and exit with status 2 — the failure counter, a non-zero
value, rather than the claimed 1; a fully successful teardown pass
resets the counter and exits with status 0. -/
theorem C3_retry_bound :
    (∀ (ev : SignalEvent) (rest : List SignalEvent) (m : Bool) (bands : List Band)
        (trace : List String),
      teardownLoop (ev :: rest) m 2 bands trace = (some 2, bands, trace)) ∧
    (∀ (e1 e2 e3 : SignalEvent) (rest : List SignalEvent) (bands bs1 bs2 : List Band)
        (tr1 tr2 : List String),
      detachBands e1.det bands = (bs1, true, tr1) →
      detachBands e2.det bs1 = (bs2, true, tr2) →
      teardownLoop (e1 :: e2 :: e3 :: rest) false 0 bands [] = (some 2, bs2, tr1 ++ tr2)) ∧
    (∀ (ev : SignalEvent) (rest : List SignalEvent) (m : Bool) (f : Nat)
        (bands bs : List Band) (tr : List String),
      f < 2 → (m = false ∨ ev.removeOk = true) →
      detachBands ev.det bands = (bs, false, tr) →
      teardownLoop (ev :: rest) m f bands [] = (some 0, bs, tr)) := by
  refine ⟨?_, ?_, ?_⟩
  · intro ev rest m bands trace
    simp [teardownLoop]
  · intro e1 e2 e3 rest bands bs1 bs2 tr1 tr2 h1 h2
    simp [teardownLoop, h1, h2]
  · intro ev rest m f bands bs tr hf hm hdet
    rcases hm with hm | hm
    · subst hm
      simp [teardownLoop, hdet, Nat.not_le.2 hf]
    · cases m <;> simp [teardownLoop, hdet, hm, Nat.not_le.2 hf]

theorem C3_retry_bound_witness :
    teardownLoop [c3EvOk, c3EvOk] true 2 [c3Band] ["x"] = (some 2, [c3Band], ["x"]) ∧
    teardownLoop [c3EvFail, c3EvFail, c3EvFail] false 0 [c3Band] [] =
      (some 2, [c3Band], ["/dev/loop0"] ++ ["/dev/loop0"]) ∧
    teardownLoop [c3EvOk] true 1 [c3Band] [] =
      (some 0,
       [{ path := "b0", id := 0, offset := 0, size := 10, attached := false,
          dev := "/dev/loop0" }], ["/dev/loop0"]) :=
  ⟨C3_retry_bound.1 c3EvOk [c3EvOk] true [c3Band] ["x"],
   C3_retry_bound.2.1 c3EvFail c3EvFail c3EvFail [] [c3Band] [c3Band] [c3Band]
     ["/dev/loop0"] ["/dev/loop0"] (by decide) (by decide),
   C3_retry_bound.2.2 c3EvOk [] true 1 [c3Band]
     [{ path := "b0", id := 0, offset := 0, size := 10, attached := false,
        dev := "/dev/loop0" }] ["/dev/loop0"] (by norm_num) (Or.inr rfl) (by decide)⟩

/-! ## Cancellation during the bind loop -/

/-- The bands left behind by the attach loop depend only on the attach
outcomes at the indices the loop actually reached. -/
theorem mapIdxBand_agree (env env' : Env) (hno : env'.noOp = env.noOp) :
    ∀ (l : List Band) (i : Nat),
      (∀ n, i ≤ n → n < i + l.length → env'.attach n = env.attach n) →
      mapIdxBand env' i l = mapIdxBand env i l := by
  intro l
  induction l with
  | nil => intro i _; simp [mapIdxBand]
  | cons b r ih =>
    intro i hag
    have hb : updBand env' i b = updBand env i b := by
      unfold updBand
      rw [hno, hag i (Nat.le_refl i) (by simp)]
    have hr := ih (i + 1) (fun n h1 h2 => hag n (by omega) (by simp; omega))
    simp [mapIdxBand, hb, hr]

/-- If the cancellation context first reports done at loop iteration
`i + k` (with `k` bands still unprocessed before it), the attach loop
returns the cancellation error, carrying the first `k` bands updated by
their attach outcomes and the rest untouched — in particular, no attach
at or beyond index `k` influences the result. -/
theorem attachAux_cancelAt (env : Env) :
    ∀ (k : Nat) (bands : List Band) (i c : Nat),
      k < bands.length →
      (∀ j, j < k → env.cancelled (i + j) = false) →
      env.cancelled (i + k) = true →
      attachBandsAux env bands i c =
        .cancelled (mapIdxBand env i (bands.take k) ++ bands.drop k) := by
  intro k
  induction k with
  | zero =>
    intro bands i c hk _ hcan
    cases bands with
    | nil => simp at hk
    | cons b r =>
      have h0 : env.cancelled i = true := by simpa using hcan
      simp [attachBandsAux, h0, mapIdxBand]
  | succ k ih =>
    intro bands i c hk hbef hcan
    cases bands with
    | nil => simp at hk
    | cons b r =>
      have h0 : env.cancelled i = false := by simpa using hbef 0 (Nat.succ_pos k)
      rcases hstep : attachStep env.noOp (env.attach i) b c with ⟨b', ts1, last'⟩
      have hb' : b' = updBand env i b := by
        rw [← attachStep_fst env i b c, hstep]
      have hrec := ih r (i + 1) last' (by simpa using hk)
        (fun j hj => by
          have h := hbef (j + 1) (by omega)
          have e : i + (j + 1) = i + 1 + j := by omega
          rwa [e] at h)
        (by
          have e : i + (k + 1) = i + 1 + k := by omega
          rwa [e] at hcan)
      simp [attachBandsAux, h0, hstep, hrec, mapIdxBand, hb']

/-- **C7**: a cancellation signal that arrives while bands are being
bound is observed at the top of the loop iteration it precedes (index
`k`): the bind loop returns the cancellation error without producing a
table, the result does not depend on any attach outcome at index `k` or
beyond, `devmapper.CreateAndLoad` is never invoked, the session exits
with status 0 after a cleanup pass whose `Detach` calls are issued for
exactly the already-bound subset of bands, and every band is unattached
on exit. -/
theorem C7_cancellation_releases_bound_subset (env : Env) (bands : List Band)
    (T k : Nat) (events : List SignalEvent)
    (hno : env.noOp = false)
    (hbef : ∀ j, j < k → env.cancelled j = false)
    (hat : env.cancelled k = true)
    (hk : k < bands.length)
    (hdet : ∀ n, env.cancelDetach n = true) :
    attachBandsAndPrepareTable env bands T =
      .cancelled (mapIdxBand env 0 (bands.take k) ++ bands.drop k) ∧
    (runSession env bands T events).createCalled = false ∧
    (runSession env bands T events).table = [] ∧
    (runSession env bands T events).exitCode = some 0 ∧
    (runSession env bands T events).detachTrace =
      ((mapIdxBand env 0 (bands.take k) ++ bands.drop k).filter
        (fun b => b.attached)).map (fun b => b.dev) ∧
    (∀ b ∈ (runSession env bands T events).bands, b.attached = false) ∧
    (∀ env' : Env, env'.noOp = false →
      (∀ n, env'.cancelled n = env.cancelled n) →
      (∀ n, n < k → env'.attach n = env.attach n) →
      attachBandsAndPrepareTable env' bands T = attachBandsAndPrepareTable env bands T) := by
  have hcancel : attachBandsAux env bands 0 0 =
      .cancelled (mapIdxBand env 0 (bands.take k) ++ bands.drop k) :=
    attachAux_cancelAt env k bands 0 0 hk (fun j hj => by simpa using hbef j hj)
      (by simpa using hat)
  have htop : attachBandsAndPrepareTable env bands T =
      .cancelled (mapIdxBand env 0 (bands.take k) ++ bands.drop k) := by
    unfold attachBandsAndPrepareTable
    rw [hcancel]
  have hclean := detachAux_allOk hdet (mapIdxBand env 0 (bands.take k) ++ bands.drop k) 0
  have hrun : runSession env bands T events =
      { exitCode := some 0, createCalled := false,
        detachTrace := ((mapIdxBand env 0 (bands.take k) ++ bands.drop k).filter
          (fun b => b.attached)).map (fun b => b.dev),
        bands := (mapIdxBand env 0 (bands.take k) ++ bands.drop k).map
          (fun b => { b with attached := false }),
        table := [], mapperPublished := false } := by
    unfold runSession detachBands
    rw [htop]
    simp only [hclean]
    norm_num
  refine ⟨htop, by rw [hrun], by rw [hrun], by rw [hrun], by rw [hrun], ?_, ?_⟩
  · intro b hb
    rw [hrun] at hb
    simp only [List.mem_map] at hb
    obtain ⟨y, _, hy⟩ := hb
    rw [← hy]
  · intro env' hno' hcanc hag
    have htop' : attachBandsAndPrepareTable env' bands T =
        .cancelled (mapIdxBand env' 0 (bands.take k) ++ bands.drop k) := by
      unfold attachBandsAndPrepareTable
      rw [attachAux_cancelAt env' k bands 0 0 hk
        (fun j hj => by rw [hcanc]; simpa using hbef j hj)
        (by rw [hcanc]; simpa using hat)]
    have hmap : mapIdxBand env' 0 (bands.take k) = mapIdxBand env 0 (bands.take k) := by
      refine mapIdxBand_agree env env' (by rw [hno', hno]) (bands.take k) 0 ?_
      intro n _ hn
      refine hag n ?_
      have := List.length_take k bands
      simp at hn
      omega
    rw [htop, htop', hmap]

/-- Witness for C7: cancellation arrives before iteration 1, so only
band 0 is ever bound; its loop device is the one detached. -/
def wEnvCancel1 : Env :=
  { noOp := false, attach := fun _ => some "d", cancelled := fun n => decide (1 ≤ n),
    cancelDetach := fun _ => true, createOk := true }

theorem C7_cancellation_witness :
    attachBandsAndPrepareTable wEnvCancel1 wBands3 12288 =
      .cancelled (mapIdxBand wEnvCancel1 0 (wBands3.take 1) ++ wBands3.drop 1) ∧
    (runSession wEnvCancel1 wBands3 12288 []).createCalled = false ∧
    (runSession wEnvCancel1 wBands3 12288 []).table = [] ∧
    (runSession wEnvCancel1 wBands3 12288 []).exitCode = some 0 ∧
    (runSession wEnvCancel1 wBands3 12288 []).detachTrace =
      ((mapIdxBand wEnvCancel1 0 (wBands3.take 1) ++ wBands3.drop 1).filter
        (fun b => b.attached)).map (fun b => b.dev) ∧
    (∀ b ∈ (runSession wEnvCancel1 wBands3 12288 []).bands, b.attached = false) ∧
    (∀ env' : Env, env'.noOp = false →
      (∀ n, env'.cancelled n = wEnvCancel1.cancelled n) →
      (∀ n, n < 1 → env'.attach n = wEnvCancel1.attach n) →
      attachBandsAndPrepareTable env' wBands3 12288 =
        attachBandsAndPrepareTable wEnvCancel1 wBands3 12288) :=
  C7_cancellation_releases_bound_subset wEnvCancel1 wBands3 12288 1 [] rfl
    (by
      intro j hj
      interval_cases j
      rfl)
    rfl (by decide) (fun _ => rfl)

/-! ## Band discovery and the offset sort -/

theorem insertRev_perm (x : Band) : ∀ acc : List Band, (insertRev x acc).Perm (x :: acc) := by
  intro acc
  induction acc with
  | nil => rfl
  | cons y ys ih =>
    unfold insertRev
    by_cases h : cmpBand x y < 0
    · rw [if_pos h]
      exact (ih.cons y).trans (List.Perm.swap x y ys)
    · rw [if_neg h]

theorem foldl_insertRev_perm :
    ∀ (l acc : List Band), (l.foldl (fun acc x => insertRev x acc) acc).Perm (l ++ acc) := by
  intro l
  induction l with
  | nil => intro acc; simp
  | cons x r ih =>
    intro acc
    have h1 : (r.foldl (fun acc x => insertRev x acc) (insertRev x acc)).Perm
        (r ++ insertRev x acc) := ih (insertRev x acc)
    have h2 : (r ++ insertRev x acc).Perm (r ++ (x :: acc)) :=
      (insertRev_perm x acc).append_left r
    have h3 : (r ++ (x :: acc)).Perm (x :: (r ++ acc)) := List.perm_middle
    exact ((h1.trans h2).trans h3)

/-- The sort returns a permutation of its input, whatever the
comparison does. -/
theorem goSortBands_perm (l : List Band) : (goSortBands l).Perm l := by
  unfold goSortBands
  refine (List.reverse_perm _).trans ?_
  simpa using foldl_insertRev_perm l []

/-- When both offsets fit in `int64` range, the comparison does not
wrap and computes the signed difference of the offsets. -/
theorem cmpBand_eq_sub {a b : Band} (ha : a.offset < 2 ^ 63) (hb : b.offset < 2 ^ 63) :
    cmpBand a b = (a.offset : Int) - (b.offset : Int) := by
  unfold cmpBand wrap64 toInt64
  rw [if_pos ha, if_pos hb]
  have h1 : (0:Int) ≤ (a.offset : Int) := Int.natCast_nonneg _
  have h2 : (0:Int) ≤ (b.offset : Int) := Int.natCast_nonneg _
  have h3 : (a.offset : Int) < 2 ^ 63 := by exact_mod_cast ha
  have h4 : (b.offset : Int) < 2 ^ 63 := by exact_mod_cast hb
  omega

theorem cmpBand_lt_iff {a b : Band} (ha : a.offset < 2 ^ 63) (hb : b.offset < 2 ^ 63) :
    cmpBand a b < 0 ↔ a.offset < b.offset := by
  rw [cmpBand_eq_sub ha hb]
  omega

/-- Inserting an element with in-range offset into a descending-sorted
(by offset) accumulator of in-range offsets keeps it descending. -/
theorem insertRev_pairwise {x : Band} (hx : x.offset < 2 ^ 63) :
    ∀ {acc : List Band}, (∀ y ∈ acc, y.offset < 2 ^ 63) →
      acc.Pairwise (fun u v => v.offset ≤ u.offset) →
      (insertRev x acc).Pairwise (fun u v => v.offset ≤ u.offset) := by
  intro acc
  induction acc with
  | nil => intro _ _; simp [insertRev]
  | cons y ys ih =>
    intro hbd hpw
    have hy : y.offset < 2 ^ 63 := hbd y (List.mem_cons_self _ _)
    have hys : ∀ z ∈ ys, z.offset < 2 ^ 63 := fun z hz => hbd z (List.mem_cons_of_mem _ hz)
    obtain ⟨hhead, htail⟩ := List.pairwise_cons.1 hpw
    unfold insertRev
    by_cases h : cmpBand x y < 0
    · rw [if_pos h]
      have hxy : x.offset < y.offset := (cmpBand_lt_iff hx hy).1 h
      refine List.pairwise_cons.2 ⟨?_, ih hys htail⟩
      intro z hz
      rcases List.mem_cons.1 ((insertRev_perm x ys).mem_iff.1 hz) with rfl | hz
      · omega
      · exact hhead z hz
    · rw [if_neg h]
      have hyx : y.offset ≤ x.offset := by
        by_contra hc
        exact h ((cmpBand_lt_iff hx hy).2 (by omega))
      refine List.pairwise_cons.2 ⟨?_, hpw⟩
      intro z hz
      rcases List.mem_cons.1 hz with rfl | hz
      · exact hyx
      · exact Nat.le_trans (hhead z hz) hyx

theorem foldl_insertRev_pairwise :
    ∀ (l acc : List Band), (∀ b ∈ l, b.offset < 2 ^ 63) →
      (∀ b ∈ acc, b.offset < 2 ^ 63) →
      acc.Pairwise (fun u v => v.offset ≤ u.offset) →
      (l.foldl (fun acc x => insertRev x acc) acc).Pairwise
        (fun u v => v.offset ≤ u.offset) := by
  intro l
  induction l with
  | nil => intro acc _ _ h; simpa using h
  | cons x r ih =>
    intro acc hl hacc hpw
    have hx : x.offset < 2 ^ 63 := hl x (List.mem_cons_self _ _)
    refine ih (insertRev x acc) (fun b hb => hl b (List.mem_cons_of_mem _ hb)) ?_ ?_
    · intro b hb
      rcases List.mem_cons.1 ((insertRev_perm x acc).mem_iff.1 hb) with rfl | hb
      · exact hx
      · exact hacc b hb
    · exact insertRev_pairwise hx hacc hpw

/-- The Go sort produces an ascending-by-offset list whenever every
offset is below `2 ^ 63` (so that the comparison cannot overflow). -/
theorem goSortBands_sorted (l : List Band) (hl : ∀ b ∈ l, b.offset < 2 ^ 63) :
    (goSortBands l).Pairwise (fun u v => u.offset ≤ v.offset) := by
  unfold goSortBands
  rw [List.pairwise_reverse]
  exact foldl_insertRev_pairwise l [] hl (by simp) (by simp)

/-- Every discovered band's offset is its parsed id times the band
size, reduced modulo `2 ^ 64` (`uint64` multiplication). -/
theorem walkBands_offset (B : Nat) :
    ∀ (entries : List Entry) (ws : List Band), walkBands B entries = some ws →
      ∀ b ∈ ws, b.offset = (b.id * B) % 2 ^ 64 := by
  intro entries
  induction entries with
  | nil =>
    intro ws hw b hb
    simp [walkBands] at hw
    rw [hw] at hb
    simp at hb
  | cons e r ih =>
    intro ws hw b hb
    by_cases hdir : e.isDir = true
    · exact ih ws (by simpa [walkBands, hdir] using hw) b hb
    · rcases hid : parseHexU64 e.name with _ | id
      · simp [walkBands, hdir, hid] at hw
      · by_cases hinfo : e.infoOk = true
        · rcases hr : walkBands B r with _ | bs
          · simp [walkBands, hdir, hid, hinfo, hr] at hw
          · simp only [walkBands, hdir, Bool.false_eq_true, if_false, hid, hinfo,
              if_true, hr, Option.some.injEq] at hw
            subst hw
            rcases List.mem_cons.1 hb with rfl | hb
            · simp [umul]
            · exact ih bs hr b hb
        · simp [walkBands, hdir, hid, hinfo] at hw

/-- **C4 (amended)**: for every discovery sequence whose bands' derived
offsets all lie below `2 ^ 63`, `enumBands` returns a permutation of
the discovered bands that is sorted ascending by `offset`, and each
band's `offset` equals its parsed hexadecimal id multiplied by the band
size, reduced modulo `2 ^ 64` — independent of the discovery order.
(The bound is necessary: the comparator converts the `uint64` offsets
to `int64` and subtracts, which overflows for larger offsets, see the
counterexample.) -/
theorem C4_sorted_discovery (entries : List Entry) (B : Nat) (ws : List Band)
    (hw : walkBands B entries = some ws)
    (hb : ∀ b ∈ ws, b.offset < 2 ^ 63) :
    ∃ bs, enumBands entries B = some bs ∧ bs.Perm ws ∧
      bs.Pairwise (fun u v => u.offset ≤ v.offset) ∧
      ∀ b ∈ bs, b.offset = (b.id * B) % 2 ^ 64 := by
  refine ⟨goSortBands ws, ?_, goSortBands_perm ws, goSortBands_sorted ws hb, ?_⟩
  · simp [enumBands, hw]
  · intro b hbr
    exact walkBands_offset B entries ws hw b ((goSortBands_perm ws).mem_iff.1 hbr)

/-- An out-of-order discovery sequence whose ids parse as hex. -/
def wEntries : List Entry :=
  [{ name := "2", isDir := false, size := 2048, infoOk := true },
   { name := "0", isDir := false, size := 4096, infoOk := true }]

theorem C4_sorted_discovery_witness :
    ∃ bs, enumBands wEntries 4096 = some bs ∧
      bs.Perm [{ path := "2", id := 2, offset := 8192, size := 2048,
                 attached := false, dev := "" },
               { path := "0", id := 0, offset := 0, size := 4096,
                 attached := false, dev := "" }] ∧
      bs.Pairwise (fun u v => u.offset ≤ v.offset) ∧
      ∀ b ∈ bs, b.offset = (b.id * 4096) % 2 ^ 64 :=
  C4_sorted_discovery wEntries 4096
    [{ path := "2", id := 2, offset := 8192, size := 2048, attached := false, dev := "" },
     { path := "0", id := 0, offset := 0, size := 4096, attached := false, dev := "" }]
    (by decide) (by decide)

/-- Band files `0` and `80000000` with a 4 GiB band size: the second
band's offset is `2 ^ 63`, where the comparator's `int64` conversion
goes negative. -/
def c4Entries : List Entry :=
  [{ name := "0", isDir := false, size := 7, infoOk := true },
   { name := "80000000", isDir := false, size := 7, infoOk := true }]

/-- **C4 counterexample**: discovered in ascending name order, the two
bands come back in *descending* offset order `[2 ^ 63, 0]`: the claim's
universally quantified sortedness fails because
`int(int64(a.offset) - int64(b.offset))` overflows. -/
theorem C4_counterexample :
    (enumBands c4Entries (2 ^ 32)).map (List.map Band.offset) = some [2 ^ 63, 0] ∧
    ¬ List.Pairwise (fun u v => u ≤ v) [2 ^ 63, (0 : Nat)] := by
  constructor
  · decide
  · decide

/-! ## Header decoding (`readBundle`) -/

/-- **C8 counterexample**: a property document with no `band-size` key
decodes without error, and `readBundle` returns a bundle whose header
has `bandSize = 0` instead of the decode error the claim requires. -/
theorem C8_counterexample :
    readBundle { infoDoc := some [("size", 8192)], entries := [] } =
      some ({ bandSize := 0, backingStoreVersion := 0, size := 8192 }, []) := by
  decide

/-- **C8 (amended)**: neither the decoder nor `readBundle` validates
the band size.  For any document whose `band-size` key is missing or
zero, the decoded header has `bandSize = 0`, and `readBundle` succeeds
with that header (whenever the band walk itself succeeds) instead of
returning an error. -/
theorem C8_no_band_size_validation (doc : List (String × Nat)) (entries : List Entry)
    (bands : List Band)
    (hmiss : lookupKey doc "band-size" = none ∨ lookupKey doc "band-size" = some 0)
    (hw : enumBands entries 0 = some bands) :
    (decodeHeader doc).bandSize = 0 ∧
    readBundle { infoDoc := some doc, entries := entries } =
      some (decodeHeader doc, bands) := by
  have hbs : (decodeHeader doc).bandSize = 0 := by
    unfold decodeHeader
    rcases hmiss with h | h <;> simp [h]
  refine ⟨hbs, ?_⟩
  unfold readBundle
  simp only [hbs, hw]

theorem C8_no_band_size_validation_witness :
    (decodeHeader [("size", 8192)]).bandSize = 0 ∧
    readBundle { infoDoc := some [("size", 8192)], entries := [] } =
      some (decodeHeader [("size", 8192)], []) :=
  C8_no_band_size_validation [("size", 8192)] [] [] (Or.inl (by decide)) (by decide)

end Sparsemapper
